import Mathlib

/-!
Verification development for the simple-code-agent repository.

The definitions below are a shallow embedding of `src/agent.ts` (and the
configuration in `src/config.ts`).  External effects — the JSON parser,
the tool handlers' filesystem / subprocess outcomes, and the chat model's
responses — are supplied by an explicit environment (`Env`), so that the
orchestration logic itself (the retry engine, the tool dispatch, and the
agent turn loop) is embedded as executable Lean functions whose control
flow mirrors the TypeScript source line by line.
-/

namespace Agent

/-! ## Backoff engine (`calculateDelay`, `withRetry` in agent.ts lines 31-75)

`withRetry` in the source builds a promise and runs `attemptOperation(1)`;
each attempt either resolves, rejects (when `attempt === maxAttempts` or
`!shouldRetry(error)`), or schedules `attemptOperation(attempt + 1)` after
`calculateDelay(attempt)` ms, invoking `onRetry(error, attempt)` first.
The embedding replaces the real clock and the `onRetry` console hook with
a trace: which attempts invoked the operation, which attempts fired the
`onRetry` hook, and which delays were scheduled.  The operation itself is
an oracle `op : Nat → Except ε α` giving the outcome of the n-th
invocation.  The structural `fuel` argument models nontermination
(`none`): the JS recursion has no fuel, but it can only loop forever when
`maxAttempts < 1`, which no caller in the repository uses. -/

def calculateDelay (attempt baseDelay multiplier maxDelay : Nat) : Nat :=
  let delay := baseDelay * multiplier ^ (attempt - 1)
  min delay maxDelay

structure RetryTrace (ε α : Type) where
  result : Except ε α
  opCalls : List Nat
  hooks : List Nat
  delays : List Nat

def attemptOperation (op : Nat → Except ε α) (maxAttempts baseDelay multiplier maxDelay : Nat)
    (shouldRetry : ε → Bool) : Nat → Nat → Option (RetryTrace ε α)
  | 0, _ => none
  | fuel + 1, attempt =>
    match op attempt with
    | Except.ok a => some ⟨Except.ok a, [attempt], [], []⟩
    | Except.error e =>
      if attempt = maxAttempts ∨ shouldRetry e = false then
        some ⟨Except.error e, [attempt], [], []⟩
      else
        (attemptOperation op maxAttempts baseDelay multiplier maxDelay shouldRetry fuel
            (attempt + 1)).map
          (fun t => ⟨t.result, attempt :: t.opCalls, attempt :: t.hooks,
            calculateDelay attempt baseDelay multiplier maxDelay :: t.delays⟩)

def withRetry (op : Nat → Except ε α) (maxAttempts baseDelay multiplier maxDelay : Nat)
    (shouldRetry : ε → Bool) (fuel : Nat) : Option (RetryTrace ε α) :=
  attemptOperation op maxAttempts baseDelay multiplier maxDelay shouldRetry fuel 1

/-! ## Configuration defaults (`src/config.ts`, `CONFIG.RETRY`) -/

def RETRY_MAX_ATTEMPTS : Nat := 3
def RETRY_BASE_DELAY : Nat := 1000
def RETRY_BACKOFF_MULTIPLIER : Nat := 2
def RETRY_MAX_DELAY : Nat := 30000
def COMMAND_EXECUTION_TIMEOUT : Nat := 120000

/-! ## JS string length versus written bytes

JavaScript `content.length` counts UTF-16 code units, while Node
`fs.writeFile(path, content, "utf8")` writes the UTF-8 encoding of the
string, whose size per character is `Char.utf8Size`. -/

def jsStringLength (s : String) : Nat :=
  (s.data.map (fun c => if c.toNat ≥ 0x10000 then 2 else 1)).sum

def utf8ByteCount (s : String) : Nat :=
  (s.data.map Char.utf8Size).sum

/-! ## Tool handlers (`read_file`, `write_file`, `run_command`, agent.ts lines 261-329)

Each handler wraps exactly one external effect in a `try`/`catch`; the
outcome of the effect is passed in as an `Except` value whose error side
carries the Node error object's fields that the source inspects. -/

structure FsError where
  code : Option String
  message : Option String
  deriving DecidableEq, Repr

def read_file (filePath : String) (outcome : Except FsError String) : String :=
  match outcome with
  | Except.ok txt => txt
  | Except.error err =>
    if err.code = some "ENOENT" then
      "Error: File '" ++ filePath ++ "' does not exist."
    else if err.code = some "EACCES" then
      "Error: Permission denied accessing '" ++ filePath ++ "'."
    else
      "Error reading file '" ++ filePath ++ "': " ++ err.message.getD "Unknown error"

def write_file (filePath content : String) (outcome : Except FsError Unit) : String :=
  match outcome with
  | Except.ok _ => "Wrote " ++ toString (jsStringLength content) ++ " bytes to " ++ filePath
  | Except.error err =>
    if err.code = some "ENOENT" then
      "Error: Directory for '" ++ filePath ++ "' does not exist. Please create the directory first."
    else if err.code = some "EACCES" then
      "Error: Permission denied writing to '" ++ filePath ++ "'."
    else if err.code = some "ENOSPC" then
      "Error: No space left on device when writing to '" ++ filePath ++ "'."
    else if err.code = some "EISDIR" then
      "Error: '" ++ filePath ++ "' is a directory, not a file."
    else if err.code = some "EROFS" then
      "Error: File system is read-only, cannot write to '" ++ filePath ++ "'."
    else
      "Error writing file '" ++ filePath ++ "': " ++ err.message.getD "Unknown error"

structure ExecOk where
  stdout : String
  stderr : String
  deriving DecidableEq, Repr

structure ExecError where
  signal : Option String
  killed : Bool
  code : Option Int
  stdout : Option String
  stderr : Option String
  message : Option String
  deriving DecidableEq, Repr

def run_command (command : String) (commandTimeout : Nat)
    (outcome : Except ExecError ExecOk) : String :=
  match outcome with
  | Except.ok r =>
    if r.stderr = "" then r.stdout
    else "STDERR: " ++ r.stderr ++ "\nSTDOUT: " ++ r.stdout
  | Except.error err =>
    if err.signal = some "SIGTERM" ∧ err.killed = true then
      "Command timed out after " ++ toString commandTimeout ++ "ms: " ++ command
    else
      "Command failed with exit code " ++
        (match err.code with | some c => toString c | none => "unknown") ++
        ":\nSTDOUT: " ++ err.stdout.getD "" ++
        "\nSTDERR: " ++ err.stderr.getD "" ++
        "\nError: " ++ err.message.getD "Unknown error"

/-! ## Tool registry (`toolHandlers`, agent.ts lines 794-803) -/

def toolHandlerNames : List String :=
  ["read_file", "write_file", "run_command", "done", "webresearch",
   "analyze_image", "image_search_analysis"]

def toolHandlersHas (name : String) : Bool :=
  toolHandlerNames.contains name

/-! ## Messages, tool calls and the agent loop state (agent.ts lines 806-955)

`Args` models the object produced by `JSON.parse` on a tool call's
argument string, as far as the loop inspects it (string-valued fields;
`args.summary` is the only field the loop itself reads).  `jsUndefined`
models JS string interpolation of a possibly-undefined field. -/

structure ToolCall where
  id : String
  name : String
  arguments : String
  deriving DecidableEq, Repr

abbrev Args := List (String × String)

def getField (args : Args) (key : String) : Option String :=
  (args.find? (fun p => p.1 == key)).map (fun p => p.2)

def jsUndefined : Option String → String
  | some s => s
  | none => "undefined"

inductive Message
  | system (content : String)
  | user (content : String)
  | assistant (content : Option String) (tool_calls : Option (List ToolCall))
  | tool (tool_call_id : String) (content : String)
  deriving DecidableEq, Repr

structure ModelMsg where
  content : Option String
  tool_calls : Option (List ToolCall)
  deriving DecidableEq, Repr

inductive JsError
  | jsonParseError (raw : String)
  | unknownTool (name : String)
  | handlerFailure (message : String)
  deriving DecidableEq, Repr

structure Env where
  jsonParse : String → Option Args
  handler : String → Args → String → Except JsError String
  mainResp : Nat → Option ModelMsg
  followResp : Nat → Option String

structure LoopState where
  messages : List Message
  isTaskComplete : Bool
  turnCount : Nat
  cwd : String
  dispatched : List String
  mainCalls : Nat
  followCalls : Nat
  deriving DecidableEq, Repr

structure RunResult where
  state : LoopState
  error : Option JsError
  deriving DecidableEq, Repr

/-! ## Tool dispatch (agent.ts lines 897-915)

The source saves `process.cwd()`, switches to the task working directory,
looks the name up in `toolHandlers` (throwing `Unknown tool` on a miss),
awaits the handler, and restores the saved directory in a `finally`
block, so the restoration also happens when the lookup or the handler
throws.  The returned pair is (handler outcome, process cwd after the
`finally` block); the handler runs with the process cwd equal to the
working directory. -/

def dispatchToolCall (env : Env) (workingDir cwd : String) (name : String) (args : Args) :
    Except JsError String × String :=
  let originalCwd := cwd
  let result :=
    if toolHandlersHas name then env.handler name args workingDir
    else Except.error (JsError.unknownTool name)
  (result, originalCwd)

/-! ## Batch processing (the `for (const toolCall of msg.tool_calls)` loop,
agent.ts lines 881-916)

Per call: `JSON.parse` the argument string (an uncaught `SyntaxError`
aborts the whole run — modelled as `RunResult.error = some _` with the
state at the moment of the throw), then the `done` check (which appends
the acknowledgement, sets the completion flag and breaks out of the
batch), then the dispatch above.  `dispatched` records the id of every
call that reached the dispatch step. -/

def processBatch (env : Env) (workingDir : String) : LoopState → List ToolCall → RunResult
  | st, [] => ⟨st, none⟩
  | st, c :: rest =>
    match env.jsonParse c.arguments with
    | none => ⟨st, some (JsError.jsonParseError c.arguments)⟩
    | some args =>
      if c.name = "done" then
        ⟨{ st with
            isTaskComplete := true,
            messages := st.messages ++
              [Message.tool c.id ("Task completed: " ++ jsUndefined (getField args "summary"))] },
          none⟩
      else
        let st1 := { st with dispatched := st.dispatched ++ [c.id] }
        match dispatchToolCall env workingDir st1.cwd c.name args with
        | (Except.ok result, restoredCwd) =>
          processBatch env workingDir
            { st1 with
                cwd := restoredCwd,
                messages := st1.messages ++ [Message.tool c.id result] } rest
        | (Except.error e, restoredCwd) =>
          ⟨{ st1 with cwd := restoredCwd }, some e⟩

/-! ## The turn loop (`while (!isTaskComplete && turnCount < maxTurns)`,
agent.ts lines 851-955)

The loop increments `turnCount`, issues the main model call, and then:
no message — `continue`; a message with `tool_calls` — push the
assistant message, process the batch, and (unless the batch completed
the task) issue a follow-up model call whose non-empty content is pushed
as an assistant message; a message without `tool_calls` — push it and
`break`.  `remaining` is the structural counterpart of
`maxTurns - turnCount`, so `remaining = 0` is exactly the loop condition
`turnCount < maxTurns` failing. -/

def agentLoop (env : Env) (workingDir : String) : Nat → LoopState → RunResult
  | 0, st => ⟨st, none⟩
  | r + 1, st =>
    if st.isTaskComplete then ⟨st, none⟩
    else
      let st := { st with turnCount := st.turnCount + 1, mainCalls := st.mainCalls + 1 }
      match env.mainResp st.turnCount with
      | none => agentLoop env workingDir r st
      | some msg =>
        match msg.tool_calls with
        | some calls =>
          let st := { st with
            messages := st.messages ++ [Message.assistant msg.content msg.tool_calls] }
          let br := processBatch env workingDir st calls
          match br.error with
          | some e => ⟨br.state, some e⟩
          | none =>
            if br.state.isTaskComplete then ⟨br.state, none⟩
            else
              let st2 := { br.state with followCalls := br.state.followCalls + 1 }
              let st3 :=
                match env.followResp st2.turnCount with
                | some content =>
                  if content = "" then st2
                  else { st2 with
                    messages := st2.messages ++ [Message.assistant (some content) none] }
                | none => st2
              agentLoop env workingDir r st3
        | none =>
          ⟨{ st with messages := st.messages ++ [Message.assistant msg.content none] }, none⟩

def maxTurns : Nat := 50

def initialState (systemPrompt enhancedUserInput cwd0 : String) : LoopState :=
  { messages := [Message.system systemPrompt, Message.user enhancedUserInput],
    isTaskComplete := false,
    turnCount := 0,
    cwd := cwd0,
    dispatched := [],
    mainCalls := 0,
    followCalls := 0 }

def agent (env : Env) (workingDir systemPrompt enhancedUserInput cwd0 : String) : RunResult :=
  agentLoop env workingDir maxTurns (initialState systemPrompt enhancedUserInput cwd0)

/-! ## String prefix helper used to state the error-prefix contracts -/

def leadsWith (p s : String) : Prop := ∃ t, s = p ++ t

/-! ## Helper lemmas -/

theorem leadsWith_refl_append (p t : String) : leadsWith p (p ++ t) := ⟨t, rfl⟩

theorem attemptOperation_delays_spec {ε α : Type} (op : Nat → Except ε α)
    (mA b m M : Nat) (p : ε → Bool) :
    ∀ (fuel attempt : Nat) (t : RetryTrace ε α),
      attemptOperation op mA b m M p fuel attempt = some t →
      t.delays = t.hooks.map (fun n => calculateDelay n b m M) := by
  intro fuel
  induction fuel with
  | zero => intro attempt t h; simp [attemptOperation] at h
  | succ f ih =>
    intro attempt t h
    rw [attemptOperation] at h
    split at h
    · simp only [Option.some.injEq] at h
      subst h
      rfl
    · split at h
      · simp only [Option.some.injEq] at h
        subst h
        rfl
      · rw [Option.map_eq_some'] at h
        obtain ⟨t', ht', rfl⟩ := h
        simp [ih (attempt + 1) t' ht']

theorem ascii_sum_eq (l : List Char) (h : ∀ ch ∈ l, ch.toNat ≤ 127) :
    (l.map (fun c => if c.toNat ≥ 0x10000 then 2 else 1)).sum = (l.map Char.utf8Size).sum := by
  induction l with
  | nil => rfl
  | cons a t ih =>
    have ha : a.toNat ≤ 127 := h a (by simp)
    have h1 : a.utf8Size = 1 := by
      have hv : a.val ≤ 127 := by
        rw [UInt32.le_def, BitVec.le_def]
        exact ha
      simp [Char.utf8Size, hv]
    have hlt : ¬(a.toNat ≥ 0x10000) := by omega
    simp only [List.map_cons, List.sum_cons, h1, if_neg hlt,
      ih (fun ch hc => h ch (List.mem_cons_of_mem a hc))]

/-! ## Claim theorems: retry engine -/

/-- Claim C3: an operation that fails on every invocation with an error the
retry predicate accepts, run under `withRetry` with `maxAttempts = 3`, is
invoked exactly 3 times (attempts 1, 2, 3, in order); the error of the final
(third) attempt is what the whole call rejects with, and the `onRetry` hook
fires exactly twice, after attempt 1 and after attempt 2, not after the final
failing attempt. -/
theorem withRetry_exhaustion {ε α : Type} (op : Nat → Except ε α) (e : Nat → ε)
    (b m M : Nat) (p : ε → Bool) (fuel : Nat)
    (hop : ∀ n, op n = Except.error (e n)) (hp : ∀ n, p (e n) = true)
    (hf : 3 ≤ fuel) :
    withRetry op 3 b m M p fuel =
      some ⟨Except.error (e 3), [1, 2, 3], [1, 2],
        [calculateDelay 1 b m M, calculateDelay 2 b m M]⟩ := by
  obtain ⟨k, rfl⟩ : ∃ k, fuel = k + 3 := ⟨fuel - 3, by omega⟩
  simp [withRetry, attemptOperation, hop, hp]

/-- Witness for C3 at a concrete always-failing operation. -/
theorem withRetry_exhaustion_witness :
    withRetry (fun n => (Except.error n : Except Nat Unit)) 3 1000 2 30000
        (fun _ => true) 3 =
      some ⟨Except.error 3, [1, 2, 3], [1, 2], [1000, 2000]⟩ := by
  have h := withRetry_exhaustion (fun n => (Except.error n : Except Nat Unit))
    (fun n => n) 1000 2 30000 (fun _ => true) 3 (fun _ => rfl) (fun _ => rfl)
    (by decide)
  simpa [calculateDelay] using h

/-- Claim C4: the backoff delay recorded before retry n+1 (that is, after the
failing attempt n) is `calculateDelay n`, which equals
`min(baseDelay * multiplier^(n-1), maxDelay)`; with the default configuration
(base 1000, multiplier 2, cap 30000) the delays after attempts 1, 2, 3 are
1000, 2000, 4000, and the delay is capped at 30000 for every attempt n ≥ 6. -/
theorem backoff_delay_formula {ε α : Type} :
    (∀ (op : Nat → Except ε α) (mA b m M : Nat) (p : ε → Bool) (fuel : Nat)
        (t : RetryTrace ε α),
      withRetry op mA b m M p fuel = some t →
      t.delays = t.hooks.map (fun n => calculateDelay n b m M)) ∧
    (∀ n b m M, 1 ≤ n → calculateDelay n b m M = min (b * m ^ (n - 1)) M) ∧
    calculateDelay 1 1000 2 30000 = 1000 ∧
    calculateDelay 2 1000 2 30000 = 2000 ∧
    calculateDelay 3 1000 2 30000 = 4000 ∧
    (∀ n, 6 ≤ n → calculateDelay n 1000 2 30000 = 30000) := by
  refine ⟨?_, ?_, by decide, by decide, by decide, ?_⟩
  · intro op mA b m M p fuel t h
    exact attemptOperation_delays_spec op mA b m M p fuel 1 t h
  · intro n b m M _
    rfl
  · intro n hn
    have h2 : (2 : Nat) ^ 5 ≤ 2 ^ (n - 1) := Nat.pow_le_pow_right (by norm_num) (by omega)
    have hcap : (30000 : Nat) ≤ 1000 * 2 ^ (n - 1) := by
      calc (30000 : Nat) ≤ 1000 * 2 ^ 5 := by norm_num
        _ ≤ 1000 * 2 ^ (n - 1) := Nat.mul_le_mul_left _ h2
    simp [calculateDelay, Nat.min_eq_right hcap]

/-- Witness for C4 at concrete attempts and a concrete retry run. -/
theorem backoff_delay_formula_witness :
    ([1000, 2000] : List Nat) =
        ([1, 2] : List Nat).map (fun n => calculateDelay n 1000 2 30000) ∧
    calculateDelay 2 1000 2 30000 = min (1000 * 2 ^ (2 - 1)) 30000 ∧
    calculateDelay 7 1000 2 30000 = 30000 := by
  refine ⟨?_, ?_, ?_⟩
  · exact (@backoff_delay_formula Nat Unit).1 (fun n => Except.error n) 3 1000 2 30000
      (fun _ => true) 3 ⟨Except.error 3, [1, 2, 3], [1, 2], [1000, 2000]⟩ rfl
  · exact (@backoff_delay_formula Nat Unit).2.1 2 1000 2 30000 (by decide)
  · exact (@backoff_delay_formula Nat Unit).2.2.2.2.2 7 (by decide)


theorem ascii_char_utf8 (a : Char) (ha : a.toNat ≤ 127) : a.utf8Size = 1 := by
  have hv : a.val ≤ 127 := by
    rw [UInt32.le_def, BitVec.le_def]
    exact ha
  simp [Char.utf8Size, hv]

/-- Claim C7: the filesystem and subprocess tool handlers are total at their
boundary — every modelled failure of the external effect is mapped to a
descriptive string whose prefix is distinct from success output, never to a
thrown exception (the embedding functions are total over the full error
type).  In particular every `write_file` and `read_file` failure string
starts with "Error"; the `write_file` permission failure starts with
"Error: Permission denied"; `write_file` success starts with "Wrote ";
`run_command` on a non-zero exit (not a timeout kill) reports the exit code,
the captured stdout and the captured stderr, and on a SIGTERM timeout kill
reports a distinct timed-out message. -/
theorem tool_handler_error_strings (p c cmd : String) (T : Nat) :
    (∀ err : FsError, leadsWith "Error" (write_file p c (Except.error err))) ∧
    (∀ m, leadsWith "Error: Permission denied"
        (write_file p c (Except.error ⟨some "EACCES", m⟩)) ∧
      write_file p c (Except.error ⟨some "EACCES", m⟩) =
        "Error: Permission denied writing to '" ++ p ++ "'.") ∧
    leadsWith "Wrote " (write_file p c (Except.ok ())) ∧
    (∀ err : FsError, leadsWith "Error" (read_file p (Except.error err))) ∧
    (∀ (e : ExecError) (exitCode : Int), ¬(e.signal = some "SIGTERM" ∧ e.killed = true) →
      e.code = some exitCode →
      run_command cmd T (Except.error e) =
        "Command failed with exit code " ++ toString exitCode ++ ":\nSTDOUT: " ++
          e.stdout.getD "" ++ "\nSTDERR: " ++ e.stderr.getD "" ++ "\nError: " ++
          e.message.getD "Unknown error") ∧
    (∀ e : ExecError, e.signal = some "SIGTERM" → e.killed = true →
      run_command cmd T (Except.error e) =
        "Command timed out after " ++ toString T ++ "ms: " ++ cmd) := by
  refine ⟨?_, ?_, ⟨_, rfl⟩, ?_, ?_, ?_⟩
  · intro err
    simp only [write_file]
    split_ifs <;> exact ⟨_, rfl⟩
  · intro m
    constructor
    · exact ⟨_, rfl⟩
    · rfl
  · intro err
    simp only [read_file]
    split_ifs <;> exact ⟨_, rfl⟩
  · intro e exitCode hsig hcode
    simp only [run_command]
    rw [if_neg hsig, hcode]
  · intro e hsig hkill
    simp only [run_command]
    rw [if_pos ⟨hsig, hkill⟩]

/-- Witness for C7 at concrete handler inputs. -/
theorem tool_handler_error_strings_witness :
    leadsWith "Error: Permission denied"
        (write_file "/root/forbidden.txt" "x" (Except.error ⟨some "EACCES", none⟩)) ∧
    run_command "exit 1" 120000
        (Except.error ⟨none, false, some 1, some "", some "", some "Command failed"⟩) =
      "Command failed with exit code " ++ toString (1 : Int) ++ ":\nSTDOUT: " ++
        "" ++ "\nSTDERR: " ++ "" ++ "\nError: " ++ "Command failed" := by
  constructor
  · exact ((tool_handler_error_strings "/root/forbidden.txt" "x" "exit 1" 120000).2.1 none).1
  · exact (tool_handler_error_strings "/root/forbidden.txt" "x" "exit 1" 120000).2.2.2.2.1
      ⟨none, false, some 1, some "", some "", some "Command failed"⟩ 1
      (by simp) rfl

/-- Claim C9 counterexample: for the one-character content "é" the underlying
write stores 2 UTF-8 bytes, but the confirmation string reports
`content.length`, which is 1 — so the reported number is not the number of
bytes written. -/
theorem write_file_byte_count_counterexample :
    write_file "p" "é" (Except.ok ()) = "Wrote 1 bytes to p" ∧
    utf8ByteCount "é" = 2 ∧
    jsStringLength "é" ≠ utf8ByteCount "é" := by
  refine ⟨by decide, by decide, by decide⟩

theorem char_val_le_iff (a : Char) (m : UInt32) : a.val ≤ m ↔ a.toNat ≤ m.toNat := by
  rw [UInt32.le_def, BitVec.le_def]
  exact Iff.rfl

theorem char_jsLen_le_utf8Size (a : Char) :
    (if a.toNat ≥ 0x10000 then (2 : Nat) else 1) ≤ a.utf8Size ∧
    ((if a.toNat ≥ 0x10000 then (2 : Nat) else 1) = a.utf8Size ↔ a.toNat ≤ 127) := by
  by_cases h1 : a.val ≤ 127
  · have hn1 : a.toNat ≤ 127 := (char_val_le_iff a 127).mp h1
    have hu : a.utf8Size = 1 := by simp [Char.utf8Size, h1]
    have hjc : (if a.toNat ≥ 0x10000 then (2 : Nat) else 1) = 1 := if_neg (by omega)
    rw [hu, hjc]
    exact ⟨Nat.le_refl 1, by simp [hn1]⟩
  · have hn1 : ¬a.toNat ≤ 127 := fun hh => h1 ((char_val_le_iff a 127).mpr hh)
    by_cases h2 : a.val ≤ 2047
    · have hu : a.utf8Size = 2 := by simp [Char.utf8Size, h1, h2]
      have hjc : (if a.toNat ≥ 0x10000 then (2 : Nat) else 1) = 1 := by
        have hn2 : a.toNat ≤ 2047 := (char_val_le_iff a 2047).mp h2
        exact if_neg (by omega)
      rw [hu, hjc]
      exact ⟨by omega, by constructor <;> (intro hh; omega)⟩
    · by_cases h3 : a.val ≤ 65535
      · have hu : a.utf8Size = 3 := by simp [Char.utf8Size, h1, h2, h3]
        have hjc : (if a.toNat ≥ 0x10000 then (2 : Nat) else 1) = 1 := by
          have hn3 : a.toNat ≤ 65535 := (char_val_le_iff a 65535).mp h3
          exact if_neg (by omega)
        rw [hu, hjc]
        exact ⟨by omega, by constructor <;> (intro hh; omega)⟩
      · have hn3 : ¬a.toNat ≤ 65535 := fun hh => h3 ((char_val_le_iff a 65535).mpr hh)
        have hu : a.utf8Size = 4 := by simp [Char.utf8Size, h1, h2, h3]
        have hjc : (if a.toNat ≥ 0x10000 then (2 : Nat) else 1) = 2 := if_pos (by omega)
        rw [hu, hjc]
        exact ⟨by omega, by constructor <;> (intro hh; omega)⟩

theorem jsLen_sum_le (l : List Char) :
    (l.map (fun c => if c.toNat ≥ 0x10000 then 2 else 1)).sum ≤
      (l.map Char.utf8Size).sum := by
  induction l with
  | nil => exact Nat.le_refl 0
  | cons a t ih =>
    simp only [List.map_cons, List.sum_cons]
    exact Nat.add_le_add (char_jsLen_le_utf8Size a).1 ih

theorem jsLen_eq_utf8_ascii : ∀ (l : List Char),
    (l.map (fun c => if c.toNat ≥ 0x10000 then 2 else 1)).sum =
      (l.map Char.utf8Size).sum →
    ∀ ch ∈ l, ch.toNat ≤ 127 := by
  intro l
  induction l with
  | nil => intro _ ch hch; cases hch
  | cons a t ih =>
    intro he ch hch
    have ha := char_jsLen_le_utf8Size a
    have hle := jsLen_sum_le t
    simp only [List.map_cons, List.sum_cons] at he
    have h1 : (if a.toNat ≥ 0x10000 then (2 : Nat) else 1) = a.utf8Size := by omega
    have h2 : (t.map (fun c => if c.toNat ≥ 0x10000 then 2 else 1)).sum =
        (t.map Char.utf8Size).sum := by omega
    rcases List.mem_cons.mp hch with rfl | hch
    · exact ha.2.mp h1
    · exact ih h2 ch hch

/-- Claim C9 (amended): on a successful write, `write_file` returns a
confirmation string reporting the content's JavaScript string length
(UTF-16 code units) as the byte count; that number equals the number of
UTF-8 bytes actually written exactly when the content is ASCII (every
character at most 127): equality holds for every ASCII content, and every
content with a non-ASCII character mismatches, since each such character
contributes strictly more UTF-8 bytes than UTF-16 code units. -/
theorem write_file_success_confirmation (p c : String) :
    write_file p c (Except.ok ()) =
      "Wrote " ++ toString (jsStringLength c) ++ " bytes to " ++ p ∧
    (jsStringLength c = utf8ByteCount c ↔ ∀ ch ∈ c.data, ch.toNat ≤ 127) := by
  constructor
  · rfl
  · constructor
    · exact fun he => jsLen_eq_utf8_ascii c.data he
    · exact fun h => ascii_sum_eq c.data h

/-- Witness for C9's amended theorem: concrete ASCII content where the
reported count equals the bytes written, and concrete non-ASCII content
where it does not, both obtained from the biconditional. -/
theorem write_file_success_confirmation_witness :
    write_file "dst.txt" "abc" (Except.ok ()) =
      "Wrote " ++ toString (jsStringLength "abc") ++ " bytes to " ++ "dst.txt" ∧
    jsStringLength "abc" = utf8ByteCount "abc" ∧
    jsStringLength "é" ≠ utf8ByteCount "é" :=
  ⟨(write_file_success_confirmation "dst.txt" "abc").1,
   (write_file_success_confirmation "dst.txt" "abc").2.mpr (by decide),
   fun h => by
     have hall := (write_file_success_confirmation "p" "é").2.mp h
     exact absurd (hall 'é' (by decide)) (by decide)⟩

/-! ## Batch-processing helper lemmas -/

instance {ε α : Type} [DecidableEq ε] [DecidableEq α] : DecidableEq (Except ε α)
  | Except.ok a, Except.ok b =>
    if h : a = b then isTrue (congrArg Except.ok h)
    else isFalse (fun he => h (Except.ok.inj he))
  | Except.ok _, Except.error _ => isFalse (fun he => Except.noConfusion he)
  | Except.error _, Except.ok _ => isFalse (fun he => Except.noConfusion he)
  | Except.error a, Except.error b =>
    if h : a = b then isTrue (congrArg Except.error h)
    else isFalse (fun he => h (Except.error.inj he))

theorem processBatch_all_ok (env : Env) (wd : String) (pa : ToolCall → Args)
    (res : ToolCall → String) :
    ∀ (calls : List ToolCall) (st : LoopState),
      (∀ c ∈ calls, c.name ≠ "done" ∧ toolHandlersHas c.name = true ∧
        env.jsonParse c.arguments = some (pa c) ∧
        env.handler c.name (pa c) wd = Except.ok (res c)) →
      processBatch env wd st calls =
        ⟨{ st with
            messages := st.messages ++ calls.map (fun c => Message.tool c.id (res c)),
            dispatched := st.dispatched ++ calls.map (fun c => c.id) }, none⟩ := by
  intro calls
  induction calls with
  | nil => intro st _; simp [processBatch]
  | cons c rest ih =>
    intro st h
    obtain ⟨hname, hreg, hparse, hok⟩ := h c (by simp)
    simp only [processBatch, hparse]
    rw [if_neg hname]
    simp only [dispatchToolCall, hreg, if_true, hok]
    rw [ih _ (fun c' hc' => h c' (List.mem_cons_of_mem c hc'))]
    simp

theorem processBatch_done_at (env : Env) (wd : String) (pa : ToolCall → Args)
    (res : ToolCall → String) (d : ToolCall) (da : Args)
    (hd : d.name = "done") (hda : env.jsonParse d.arguments = some da) :
    ∀ (pre post : List ToolCall) (st : LoopState),
      (∀ c ∈ pre, c.name ≠ "done" ∧ toolHandlersHas c.name = true ∧
        env.jsonParse c.arguments = some (pa c) ∧
        env.handler c.name (pa c) wd = Except.ok (res c)) →
      processBatch env wd st (pre ++ d :: post) =
        ⟨{ st with
            messages := st.messages ++ pre.map (fun c => Message.tool c.id (res c)) ++
              [Message.tool d.id
                ("Task completed: " ++ jsUndefined (getField da "summary"))],
            dispatched := st.dispatched ++ pre.map (fun c => c.id),
            isTaskComplete := true }, none⟩ := by
  intro pre
  induction pre with
  | nil =>
    intro post st _
    simp only [List.nil_append, processBatch, hda]
    rw [if_pos hd]
    simp
  | cons c rest ih =>
    intro post st h
    obtain ⟨hname, hreg, hparse, hok⟩ := h c (by simp)
    simp only [List.cons_append, processBatch, hparse]
    rw [if_neg hname]
    simp only [dispatchToolCall, hreg, if_true, hok]
    simp only [List.append_eq]
    rw [ih _ _ (fun c' hc' => h c' (List.mem_cons_of_mem c hc'))]
    simp

theorem processBatch_ok_exists (env : Env) (wd : String) :
    ∀ (calls : List ToolCall) (st : LoopState),
      (∀ c ∈ calls, c.name ≠ "done" ∧ toolHandlersHas c.name = true ∧
        ∃ a, env.jsonParse c.arguments = some a ∧
          ∃ s, env.handler c.name a wd = Except.ok s) →
      ∃ msgs ids, processBatch env wd st calls =
        ⟨{ st with
            messages := st.messages ++ msgs,
            dispatched := st.dispatched ++ ids }, none⟩ := by
  intro calls
  induction calls with
  | nil => intro st _; exact ⟨[], [], by simp [processBatch]⟩
  | cons c rest ih =>
    intro st h
    obtain ⟨hname, hreg, a, hparse, s, hok⟩ := h c (by simp)
    obtain ⟨msgs, ids, hrec⟩ := ih
      { st with
          dispatched := st.dispatched ++ [c.id],
          messages := st.messages ++ [Message.tool c.id s] }
      (fun c' hc' => h c' (List.mem_cons_of_mem c hc'))
    refine ⟨Message.tool c.id s :: msgs, c.id :: ids, ?_⟩
    simp only [processBatch, hparse]
    rw [if_neg hname]
    simp only [dispatchToolCall, hreg, if_true, hok]
    rw [hrec]
    simp

/-! ## Claim theorems: batch processing -/

def envOkBatch : Env :=
  { jsonParse := fun _ => some [],
    handler := fun n _ _ => Except.ok ("ran " ++ n),
    mainResp := fun _ => none,
    followResp := fun _ => none }

def envDoneBatch : Env :=
  { jsonParse := fun _ => some [("summary", "ok")],
    handler := fun _ _ _ => Except.ok "r",
    mainResp := fun _ => none,
    followResp := fun _ => none }

/-- Claim C1 counterexample: a batch of N = 2 tool calls whose first call is
named `done` makes the orchestrator append exactly 1 tool-role message (the
`done` acknowledgement), not N = 2 — the second call is skipped by the batch
break, so the claim as stated (exactly N tool-role messages for every batch
of N calls) fails on this batch. -/
theorem batch_message_count_counterexample :
    (processBatch envDoneBatch "wd" (initialState "sp" "u" "c0")
        [⟨"id1", "done", "a"⟩, ⟨"id2", "read_file", "a"⟩]).state.messages.length =
      (initialState "sp" "u" "c0").messages.length + 1 ∧
    (processBatch envDoneBatch "wd" (initialState "sp" "u" "c0")
        [⟨"id1", "done", "a"⟩, ⟨"id2", "read_file", "a"⟩]).state.messages.length ≠
      (initialState "sp" "u" "c0").messages.length + 2 := by
  refine ⟨by decide, by decide⟩

/-- Claim C1 (amended): for every batch of N tool calls in one assistant turn
in which no call is named `done`, every call's name is registered, every
arguments string parses, and every handler returns normally, the orchestrator
appends exactly N tool-role messages, in the order the calls were issued, the
i-th carrying the i-th call's id as `tool_call_id`; no model call happens
during the batch (the loop only issues the follow-up / next-turn model call
after `processBatch` returns, and the state's model-call counters are
untouched by the batch). -/
theorem batch_appends_one_message_per_call (env : Env) (wd : String)
    (pa : ToolCall → Args) (res : ToolCall → String) (calls : List ToolCall)
    (st : LoopState)
    (h : ∀ c ∈ calls, c.name ≠ "done" ∧ toolHandlersHas c.name = true ∧
      env.jsonParse c.arguments = some (pa c) ∧
      env.handler c.name (pa c) wd = Except.ok (res c)) :
    processBatch env wd st calls =
      ⟨{ st with
          messages := st.messages ++ calls.map (fun c => Message.tool c.id (res c)),
          dispatched := st.dispatched ++ calls.map (fun c => c.id) }, none⟩ :=
  processBatch_all_ok env wd pa res calls st h

/-- Witness for C1's amended theorem at a concrete two-call batch. -/
theorem batch_appends_one_message_per_call_witness :
    processBatch envOkBatch "wd" (initialState "sp" "u" "c0")
        [⟨"id1", "read_file", "a"⟩, ⟨"id2", "run_command", "a"⟩] =
      ⟨{ initialState "sp" "u" "c0" with
          messages := (initialState "sp" "u" "c0").messages ++
            [Message.tool "id1" "ran read_file", Message.tool "id2" "ran run_command"],
          dispatched := ["id1", "id2"] }, none⟩ := by
  have h := batch_appends_one_message_per_call envOkBatch "wd" (fun _ => [])
    (fun c => "ran " ++ c.name)
    [⟨"id1", "read_file", "a"⟩, ⟨"id2", "run_command", "a"⟩]
    (initialState "sp" "u" "c0") (by decide)
  simpa using h

/-- Claim C5: every tool dispatch (the `chdir`/`try`/`finally` block around a
non-`done` call) leaves the process working directory equal to its value just
before the dispatch, whether the handler returns normally, the handler
throws, or the registry lookup throws `Unknown tool`; consequently the whole
batch loop preserves the working directory, including on an aborted batch. -/
theorem dispatch_restores_cwd (env : Env) (wd : String) :
    (∀ (cwd name : String) (args : Args),
      (dispatchToolCall env wd cwd name args).2 = cwd) ∧
    (∀ (calls : List ToolCall) (st : LoopState),
      (processBatch env wd st calls).state.cwd = st.cwd) := by
  constructor
  · intro cwd name args
    rfl
  · intro calls
    induction calls with
    | nil => intro st; rfl
    | cons c rest ih =>
      intro st
      simp only [processBatch]
      cases hp : env.jsonParse c.arguments with
      | none => rfl
      | some args =>
        dsimp only
        by_cases hd : c.name = "done"
        · rw [if_pos hd]
        · rw [if_neg hd]
          simp only [dispatchToolCall]
          cases hh : (if toolHandlersHas c.name = true then env.handler c.name args wd
              else Except.error (JsError.unknownTool c.name)) with
          | ok s => exact ih _
          | error e => rfl

/-- Claim C8: dispatching a tool call whose name has no registered handler
throws an unknown-tool error inside the `try` block; the error is not caught
and not converted into a tool-role message — the batch stops with no new
message appended, and at the loop level the whole run aborts with that error
(it propagates to the dispatch site's caller and beyond). -/
theorem unknown_tool_propagates (env : Env) (wd : String) (st : LoopState)
    (c : ToolCall) (rest : List ToolCall) (args : Args) (r : Nat) (m : ModelMsg)
    (hname : c.name ≠ "done") (hreg : toolHandlersHas c.name = false)
    (hp : env.jsonParse c.arguments = some args) :
    processBatch env wd st (c :: rest) =
      ⟨{ st with dispatched := st.dispatched ++ [c.id] },
        some (JsError.unknownTool c.name)⟩ ∧
    (st.isTaskComplete = false → env.mainResp (st.turnCount + 1) = some m →
      m.tool_calls = some (c :: rest) →
      agentLoop env wd (r + 1) st =
        ⟨{ st with
            turnCount := st.turnCount + 1,
            mainCalls := st.mainCalls + 1,
            messages := st.messages ++ [Message.assistant m.content m.tool_calls],
            dispatched := st.dispatched ++ [c.id] },
          some (JsError.unknownTool c.name)⟩) := by
  have hbatch : ∀ st' : LoopState, processBatch env wd st' (c :: rest) =
      ⟨{ st' with dispatched := st'.dispatched ++ [c.id] },
        some (JsError.unknownTool c.name)⟩ := by
    intro st'
    simp only [processBatch, hp]
    rw [if_neg hname]
    simp only [dispatchToolCall, hreg]
    simp
  refine ⟨hbatch st, ?_⟩
  intro hst hm htc
  simp only [agentLoop, hst]
  simp only [Bool.false_eq_true, if_false]
  simp only [hm, htc, hbatch]

/-- Witness for C8 at a concrete unregistered tool name. -/
theorem unknown_tool_propagates_witness :
    processBatch envOkBatch "wd" (initialState "sp" "u" "c0")
        [⟨"id1", "no_such_tool", "a"⟩] =
      ⟨{ initialState "sp" "u" "c0" with dispatched := ["id1"] },
        some (JsError.unknownTool "no_such_tool")⟩ := by
  have h := (unknown_tool_propagates envOkBatch "wd" (initialState "sp" "u" "c0")
    ⟨"id1", "no_such_tool", "a"⟩ [] [] 0 ⟨none, none⟩
    (by decide) (by decide) rfl).1
  simpa using h

/-- Claim C10: the orchestrator runs `JSON.parse` on a tool call's arguments
before the `done` check and outside any exception handler, so a model
response whose tool call carries an argument string the parser rejects makes
the loop throw before any handler runs and before any tool-role message is
appended: the batch returns the parse error with the state untouched (no new
message, nothing dispatched), and at the loop level the run aborts with that
error right after the assistant message is appended.  The batch-level
equation holds for any call, including one named `done`. -/
theorem json_parse_failure_aborts_run (env : Env) (wd : String) (st : LoopState)
    (c : ToolCall) (rest : List ToolCall) (r : Nat) (m : ModelMsg)
    (hp : env.jsonParse c.arguments = none) :
    processBatch env wd st (c :: rest) =
      ⟨st, some (JsError.jsonParseError c.arguments)⟩ ∧
    (st.isTaskComplete = false → env.mainResp (st.turnCount + 1) = some m →
      m.tool_calls = some (c :: rest) →
      agentLoop env wd (r + 1) st =
        ⟨{ st with
            turnCount := st.turnCount + 1,
            mainCalls := st.mainCalls + 1,
            messages := st.messages ++ [Message.assistant m.content m.tool_calls] },
          some (JsError.jsonParseError c.arguments)⟩) := by
  have hbatch : ∀ st' : LoopState, processBatch env wd st' (c :: rest) =
      ⟨st', some (JsError.jsonParseError c.arguments)⟩ := by
    intro st'
    simp [processBatch, hp]
  refine ⟨hbatch st, ?_⟩
  intro hst hm htc
  simp only [agentLoop, hst]
  simp only [Bool.false_eq_true, if_false]
  simp only [hm, htc, hbatch]

def envAbortJson : Env :=
  { jsonParse := fun _ => none,
    handler := fun _ _ _ => Except.ok "r",
    mainResp := fun _ => some ⟨none, some [⟨"id1", "read_file", "not json"⟩]⟩,
    followResp := fun _ => none }

/-- Witness for C10 at a concrete unparseable argument string, on a call that
is even named done. -/
theorem json_parse_failure_aborts_run_witness :
    processBatch envAbortJson "wd" (initialState "sp" "u" "c0")
        [⟨"id1", "done", "not json"⟩] =
      ⟨initialState "sp" "u" "c0", some (JsError.jsonParseError "not json")⟩ :=
  (json_parse_failure_aborts_run envAbortJson "wd" (initialState "sp" "u" "c0")
    ⟨"id1", "done", "not json"⟩ [] 0 ⟨none, none⟩ rfl).1

/-- Claim C2 (amended): if the K-th call of a batch of N tool calls (K < N)
is named done, its own arguments string parses (`JSON.parse` runs before the
done check, so an unparseable done call aborts the run instead), and the
calls before it dispatch normally, then calls K+1..N are never dispatched
(the dispatch trace gains only the ids of calls 1..K-1 and the transcript
gains no message for them), the completion flag is set, and the loop returns
immediately as completed: the current turn's main model call is the last
model call of the task run — no follow-up call is issued (the follow-up
counter is untouched) and no later turn happens.  The claim as frozen
silently assumes both conditions; see the counterexample for the case where
an earlier call aborts the batch before done is reached. -/
theorem done_short_circuits_batch (env : Env) (wd : String) (pa : ToolCall → Args)
    (res : ToolCall → String) (pre post : List ToolCall) (d : ToolCall) (da : Args)
    (r : Nat) (st : LoopState) (m : ModelMsg)
    (hpre : ∀ c ∈ pre, c.name ≠ "done" ∧ toolHandlersHas c.name = true ∧
      env.jsonParse c.arguments = some (pa c) ∧
      env.handler c.name (pa c) wd = Except.ok (res c))
    (hd : d.name = "done") (hda : env.jsonParse d.arguments = some da)
    (hst : st.isTaskComplete = false)
    (hm : env.mainResp (st.turnCount + 1) = some m)
    (htc : m.tool_calls = some (pre ++ d :: post)) :
    agentLoop env wd (r + 1) st =
      ⟨{ st with
          turnCount := st.turnCount + 1,
          mainCalls := st.mainCalls + 1,
          messages := st.messages ++ [Message.assistant m.content m.tool_calls] ++
            pre.map (fun c => Message.tool c.id (res c)) ++
            [Message.tool d.id ("Task completed: " ++ jsUndefined (getField da "summary"))],
          dispatched := st.dispatched ++ pre.map (fun c => c.id),
          isTaskComplete := true }, none⟩ := by
  simp only [agentLoop, hst, Bool.false_eq_true, if_false]
  simp only [hm, htc]
  rw [processBatch_done_at env wd pa res d da hd hda pre post _ hpre]
  simp

def envBadThenDone : Env :=
  { jsonParse := fun s => if s == "good" then some [("summary", "ok")] else none,
    handler := fun _ _ _ => Except.ok "r",
    mainResp := fun _ => none,
    followResp := fun _ => none }

/-- Claim C2 counterexample: in a batch of N = 3 calls whose second call
(K = 2 < N = 3) is named done, an unparseable first call aborts the batch
before done is reached: the later calls are indeed not dispatched, but the
completion flag is never set and the run aborts with the parse error rather
than terminating as completed — against the claim, which promises the
completion flag whenever some K-th call of the batch is named done. -/
theorem done_flag_counterexample :
    (processBatch envBadThenDone "wd" (initialState "sp" "u" "c0")
        [⟨"id1", "read_file", "bad"⟩, ⟨"id2", "done", "good"⟩,
         ⟨"id3", "run_command", "good"⟩]).state.isTaskComplete = false ∧
    (processBatch envBadThenDone "wd" (initialState "sp" "u" "c0")
        [⟨"id1", "read_file", "bad"⟩, ⟨"id2", "done", "good"⟩,
         ⟨"id3", "run_command", "good"⟩]).error =
      some (JsError.jsonParseError "bad") := by
  refine ⟨by decide, by decide⟩

def envDoneRun : Env :=
  { jsonParse := fun _ => some [("summary", "all done")],
    handler := fun n _ _ => Except.ok ("ran " ++ n),
    mainResp := fun _ => some ⟨none, some [⟨"id1", "read_file", "a"⟩,
      ⟨"id2", "done", "a"⟩, ⟨"id3", "run_command", "a"⟩]⟩,
    followResp := fun _ => some "follow" }

/-- Witness for C2 at a concrete three-call batch whose second call is done. -/
theorem done_short_circuits_batch_witness :
    agentLoop envDoneRun "wd" 50 (initialState "sp" "u" "c0") =
      ⟨{ messages := [Message.system "sp", Message.user "u",
           Message.assistant none (some [⟨"id1", "read_file", "a"⟩,
             ⟨"id2", "done", "a"⟩, ⟨"id3", "run_command", "a"⟩]),
           Message.tool "id1" "ran read_file",
           Message.tool "id2" "Task completed: all done"],
         isTaskComplete := true,
         turnCount := 1,
         cwd := "c0",
         dispatched := ["id1"],
         mainCalls := 1,
         followCalls := 0 }, none⟩ := by
  have h := done_short_circuits_batch envDoneRun "wd"
    (fun _ => [("summary", "all done")]) (fun c => "ran " ++ c.name)
    [⟨"id1", "read_file", "a"⟩] [⟨"id3", "run_command", "a"⟩]
    ⟨"id2", "done", "a"⟩ [("summary", "all done")] 49
    (initialState "sp" "u" "c0") ⟨none, some [⟨"id1", "read_file", "a"⟩,
      ⟨"id2", "done", "a"⟩, ⟨"id3", "run_command", "a"⟩]⟩
    (by decide) rfl rfl rfl rfl rfl
  exact h.trans (by decide)

/-! ## Turn-budget helper -/

theorem agentLoop_runs_to_budget (env : Env) (wd : String)
    (h : ∀ t, ∃ m calls, env.mainResp t = some m ∧ m.tool_calls = some calls ∧
      ∀ c ∈ calls, c.name ≠ "done" ∧ toolHandlersHas c.name = true ∧
        ∃ a, env.jsonParse c.arguments = some a ∧
          ∃ s, env.handler c.name a wd = Except.ok s) :
    ∀ (r : Nat) (st : LoopState), st.isTaskComplete = false →
      ∃ st', agentLoop env wd r st = ⟨st', none⟩ ∧
        st'.turnCount = st.turnCount + r ∧ st'.mainCalls = st.mainCalls + r ∧
        st'.isTaskComplete = false := by
  intro r
  induction r with
  | zero => intro st hst; exact ⟨st, rfl, rfl, rfl, hst⟩
  | succ r ih =>
    intro st hst
    obtain ⟨m, calls, hm, htc, hcalls⟩ := h (st.turnCount + 1)
    obtain ⟨msgs, ids, hbatch⟩ := processBatch_ok_exists env wd calls
      { messages := st.messages ++ [Message.assistant m.content (some calls)],
        isTaskComplete := false,
        turnCount := st.turnCount + 1,
        cwd := st.cwd,
        dispatched := st.dispatched,
        mainCalls := st.mainCalls + 1,
        followCalls := st.followCalls }
      hcalls
    simp only [agentLoop, hst, Bool.false_eq_true, if_false]
    simp only [hm, htc]
    rw [hbatch]
    dsimp only
    cases hf : env.followResp (st.turnCount + 1) with
    | none =>
      obtain ⟨st', heq, ht, hmc, hc⟩ := ih
        { messages := (st.messages ++ [Message.assistant m.content (some calls)]) ++ msgs,
          isTaskComplete := false,
          turnCount := st.turnCount + 1,
          cwd := st.cwd,
          dispatched := st.dispatched ++ ids,
          mainCalls := st.mainCalls + 1,
          followCalls := st.followCalls + 1 } rfl
      refine ⟨st', ?_, by simp at ht; omega, by simp at hmc; omega, hc⟩
      rw [← heq]
      simp
    | some content =>
      by_cases hce : content = ""
      · obtain ⟨st', heq, ht, hmc, hc⟩ := ih
          { messages := (st.messages ++ [Message.assistant m.content (some calls)]) ++ msgs,
            isTaskComplete := false,
            turnCount := st.turnCount + 1,
            cwd := st.cwd,
            dispatched := st.dispatched ++ ids,
            mainCalls := st.mainCalls + 1,
            followCalls := st.followCalls + 1 } rfl
        refine ⟨st', ?_, by simp at ht; omega, by simp at hmc; omega, hc⟩
        rw [← heq]
        simp [hce]
      · obtain ⟨st', heq, ht, hmc, hc⟩ := ih
          { messages := ((st.messages ++ [Message.assistant m.content (some calls)]) ++ msgs)
              ++ [Message.assistant (some content) none],
            isTaskComplete := false,
            turnCount := st.turnCount + 1,
            cwd := st.cwd,
            dispatched := st.dispatched ++ ids,
            mainCalls := st.mainCalls + 1,
            followCalls := st.followCalls + 1 } rfl
        refine ⟨st', ?_, by simp at ht; omega, by simp at hmc; omega, hc⟩
        rw [← heq]
        simp [hce]

/-- Claim C6 counterexample: with a model that on every turn requests a
single read_file call whose arguments string the JSON parser rejects, the
done tool is never invoked and every model response carries tool calls, yet
the run aborts with the uncaught parse error after exactly 1 model-call turn
instead of performing maxTurns = 50 turns. -/
theorem agent_turn_budget_counterexample :
    (agent envAbortJson "wd" "sp" "u" "c0").state.turnCount = 1 ∧
    (agent envAbortJson "wd" "sp" "u" "c0").error =
      some (JsError.jsonParseError "not json") ∧
    (agent envAbortJson "wd" "sp" "u" "c0").state.isTaskComplete = false ∧
    (1 : Nat) ≠ maxTurns := by
  refine ⟨by decide, by decide, by decide, by decide⟩

/-- Claim C6 (amended): if the done tool is never invoked — every model
response carries tool calls, none named done — and every call in every batch
parses, names a registered tool, and its handler returns normally, then the
agent loop performs exactly maxTurns = 50 model-call turns (50 main model
calls, one per turn) and then stops with the completion flag unset, which is
the non-completed outcome the source reports via its maximum-turns warning.
The claim as frozen omits the dispatch-normality requirement; see the
counterexample, where one malformed arguments string ends the run after one
turn. -/
theorem agent_runs_exactly_max_turns (env : Env) (wd sp eui cwd0 : String)
    (h : ∀ t, ∃ m calls, env.mainResp t = some m ∧ m.tool_calls = some calls ∧
      ∀ c ∈ calls, c.name ≠ "done" ∧ toolHandlersHas c.name = true ∧
        ∃ a, env.jsonParse c.arguments = some a ∧
          ∃ s, env.handler c.name a wd = Except.ok s) :
    ∃ st', agent env wd sp eui cwd0 = ⟨st', none⟩ ∧
      st'.turnCount = maxTurns ∧ st'.mainCalls = maxTurns ∧
      st'.isTaskComplete = false := by
  obtain ⟨st', heq, ht, hmc, hc⟩ := agentLoop_runs_to_budget env wd h maxTurns
    (initialState sp eui cwd0) rfl
  exact ⟨st', heq, by simpa using ht, by simpa using hmc, hc⟩

def envLoops : Env :=
  { jsonParse := fun _ => some [],
    handler := fun n _ _ => Except.ok ("ran " ++ n),
    mainResp := fun _ => some ⟨some "working", some []⟩,
    followResp := fun _ => none }

/-- Witness for C6's amended theorem: a model that always answers with an
(empty) tool-call batch and never calls done drives the loop through all 50
turns. -/
theorem agent_runs_exactly_max_turns_witness :
    (agent envLoops "wd" "sp" "u" "c0").state.turnCount = maxTurns ∧
    (agent envLoops "wd" "sp" "u" "c0").state.mainCalls = maxTurns ∧
    (agent envLoops "wd" "sp" "u" "c0").state.isTaskComplete = false ∧
    (agent envLoops "wd" "sp" "u" "c0").error = none := by
  obtain ⟨st', heq, ht, hmc, hc⟩ := agent_runs_exactly_max_turns envLoops "wd" "sp" "u" "c0"
    (fun _ => ⟨⟨some "working", some []⟩, [], rfl, rfl, by simp⟩)
  rw [heq]
  exact ⟨ht, hmc, hc, rfl⟩
end Agent
